import Mathlib

/-!
Verification of the single-qubit state engine (`src/utils/quantumEngine.ts`):
complex arithmetic, the six-gate catalogue, gate application, Born-rule
probability, measurement collapse and Bloch-sphere coordinates.

The floating-point doubles of the source are embedded as exact real numbers;
`Math.sqrt`, `Math.sin`, `Math.cos`, `Math.asin`, `Math.atan2` become the
corresponding exact real functions, and `Math.random()` becomes an explicit
parameter `roll` carrying the one random draw of `measure`.
-/

namespace QuantumEngine

noncomputable section

/-- Complex number as in `src/types`: real part `r`, imaginary part `i`. -/
@[ext]
structure Complex where
  r : ℝ
  i : ℝ

/-- `createComplex` from `quantumEngine.ts`. -/
def createComplex (r i : ℝ) : Complex := ⟨r, i⟩

/-- Componentwise complex addition (`add` in the source). -/
def add (a b : Complex) : Complex := ⟨a.r + b.r, a.i + b.i⟩

/-- Complex multiplication (`multiply` in the source). -/
def multiply (a b : Complex) : Complex :=
  ⟨a.r * b.r - a.i * b.i, a.r * b.i + a.i * b.r⟩

/-- `magnitude c = Math.sqrt (c.r * c.r + c.i * c.i)`. -/
def magnitude (c : Complex) : ℝ := Real.sqrt (c.r * c.r + c.i * c.i)

/-- Euler formula `e^(i theta) = (cos theta, sin theta)` (`expImaginary`). -/
def expImaginary (theta : ℝ) : Complex := ⟨Real.cos theta, Real.sin theta⟩

/-- A single-qubit state: amplitudes `alpha` (zero outcome) and `beta` (one outcome). -/
@[ext]
structure QuantumState where
  alpha : Complex
  beta : Complex

/-- `INITIAL_STATE` from the source. -/
def INITIAL_STATE : QuantumState := ⟨createComplex 1 0, createComplex 0 0⟩

/-- Canonical one state `STATE_ONE` (`alpha=0, beta=1`). -/
def STATE_ONE : QuantumState := ⟨createComplex 0 0, createComplex 1 0⟩

/-- Canonical zero state `STATE_ZERO` (`alpha=1, beta=0`). -/
def STATE_ZERO : QuantumState := ⟨createComplex 1 0, createComplex 0 0⟩

/-- The closed six-gate catalogue tag (`GateType` in `src/types`). -/
inductive GateType where
  | H | X | Y | Z | S | T
deriving DecidableEq

/-- A 2x2 complex matrix; `m01` is the source's `matrix[0][1]`, etc. -/
structure Matrix2x2 where
  m00 : Complex
  m01 : Complex
  m10 : Complex
  m11 : Complex

def ZERO : Complex := createComplex 0 0
def ONE : Complex := createComplex 1 0
def NEG_ONE : Complex := createComplex (-1) 0
def I : Complex := createComplex 0 1
def NEG_I : Complex := createComplex 0 (-1)
def INV_SQRT_2 : Complex := createComplex (1 / Real.sqrt 2) 0

/-- The gate matrices (`GATES` record in the source). -/
def GATES : GateType → Matrix2x2
  | .H => ⟨INV_SQRT_2, INV_SQRT_2, INV_SQRT_2, createComplex (-1 / Real.sqrt 2) 0⟩
  | .X => ⟨ZERO, ONE, ONE, ZERO⟩
  | .Y => ⟨ZERO, NEG_I, I, ZERO⟩
  | .Z => ⟨ONE, ZERO, ZERO, NEG_ONE⟩
  | .S => ⟨ONE, ZERO, ZERO, I⟩
  | .T => ⟨ONE, ZERO, ZERO, expImaginary (Real.pi / 4)⟩

/-- `applyGate`: matrix-vector product of the gate matrix with `(alpha, beta)`. -/
def applyGate (state : QuantumState) (gate : GateType) : QuantumState :=
  let matrix := GATES gate
  let newAlpha := add (multiply matrix.m00 state.alpha) (multiply matrix.m01 state.beta)
  let newBeta := add (multiply matrix.m10 state.alpha) (multiply matrix.m11 state.beta)
  ⟨newAlpha, newBeta⟩

/-- JavaScript `Math.atan2 y x` over exact reals (signed zeros collapse to 0). -/
def atan2 (y x : ℝ) : ℝ :=
  if 0 < x then Real.arctan (y / x)
  else if x < 0 then
    (if 0 ≤ y then Real.arctan (y / x) + Real.pi else Real.arctan (y / x) - Real.pi)
  else
    (if 0 < y then Real.pi / 2 else if y < 0 then -(Real.pi / 2) else 0)

/-- The Bloch point `{ x, y, z }` returned by `getBlochCoordinates`. -/
structure BlochPoint where
  x : ℝ
  y : ℝ
  z : ℝ

/-- `getBlochCoordinates`: clamp `|beta|` to `[0,1]`, `theta = 2 asin`, relative
phase `phi` via `atan2`, spherical coordinates. -/
def getBlochCoordinates (state : QuantumState) : BlochPoint :=
  let magBeta := magnitude state.beta
  let clampedBeta := min (max magBeta 0) 1
  let theta := 2 * Real.arcsin clampedBeta
  let phaseAlpha := atan2 state.alpha.i state.alpha.r
  let phaseBeta := atan2 state.beta.i state.beta.r
  let phi := phaseBeta - phaseAlpha
  ⟨Real.sin theta * Real.cos phi, Real.sin theta * Real.sin phi, Real.cos theta⟩

/-- `getProbability` (the spec's `probabilityOfOne`): `magnitude(beta)` squared. -/
def getProbability (state : QuantumState) : ℝ :=
  let magBeta := magnitude state.beta
  magBeta * magBeta

/-- Result record of `measure`: the collapsed state and the binary outcome. -/
structure MeasureResult where
  collapsedState : QuantumState
  outcome : Fin 2

/-- `measure`, with the source's `Math.random()` draw passed in as `roll`. -/
def measure (state : QuantumState) (roll : ℝ) : MeasureResult :=
  let probOne := getProbability state
  if roll < probOne then ⟨STATE_ONE, 1⟩ else ⟨STATE_ZERO, 0⟩

/-- The normalization invariant of the spec: `|alpha|^2 + |beta|^2 = 1`. -/
def normSqState (s : QuantumState) : ℝ :=
  magnitude s.alpha ^ 2 + magnitude s.beta ^ 2

/-! ### Basic arithmetic lemmas -/

lemma magnitude_nonneg (c : Complex) : 0 ≤ magnitude c := Real.sqrt_nonneg _

lemma magnitude_mul_self (c : Complex) : magnitude c * magnitude c = c.r * c.r + c.i * c.i :=
  Real.mul_self_sqrt (by nlinarith [sq_nonneg c.r, sq_nonneg c.i])

lemma magnitude_sq (c : Complex) : magnitude c ^ 2 = c.r ^ 2 + c.i ^ 2 := by
  rw [sq, magnitude_mul_self]; ring

lemma normSqState_eq (s : QuantumState) :
    normSqState s = s.alpha.r ^ 2 + s.alpha.i ^ 2 + s.beta.r ^ 2 + s.beta.i ^ 2 := by
  simp only [normSqState, magnitude_sq]; ring

lemma atan2_zero_zero : atan2 0 0 = 0 := by simp [atan2]

lemma atan2_zero_of_pos {x : ℝ} (hx : 0 < x) : atan2 0 x = 0 := by
  simp [atan2, hx]

lemma atan2_zero_of_neg {x : ℝ} (hx : x < 0) : atan2 0 x = Real.pi := by
  rw [atan2, if_neg (by linarith), if_pos hx, if_pos le_rfl]
  simp

lemma clamp_eq {m : ℝ} (h0 : 0 ≤ m) (h1 : m ≤ 1) : min (max m 0) 1 = m := by
  rw [max_eq_left h0, min_eq_left h1]

/-! ### Normalization is preserved by each catalogue gate -/

lemma normSq_applyGate_H (s : QuantumState) :
    normSqState (applyGate s .H) = normSqState s := by
  have h2 : Real.sqrt 2 * Real.sqrt 2 = 2 := Real.mul_self_sqrt (by norm_num)
  have h0 : Real.sqrt 2 ≠ 0 := by positivity
  simp only [normSqState_eq, applyGate, GATES, add, multiply, INV_SQRT_2, createComplex]
  field_simp
  nlinarith [h2, sq_nonneg (s.alpha.r + s.beta.r)]

lemma normSq_applyGate_X (s : QuantumState) :
    normSqState (applyGate s .X) = normSqState s := by
  simp only [normSqState_eq, applyGate, GATES, add, multiply, ZERO, ONE, createComplex]
  ring

lemma normSq_applyGate_Y (s : QuantumState) :
    normSqState (applyGate s .Y) = normSqState s := by
  simp only [normSqState_eq, applyGate, GATES, add, multiply, ZERO, I, NEG_I, createComplex]
  ring

lemma normSq_applyGate_Z (s : QuantumState) :
    normSqState (applyGate s .Z) = normSqState s := by
  simp only [normSqState_eq, applyGate, GATES, add, multiply, ZERO, ONE, NEG_ONE, createComplex]
  ring

lemma normSq_applyGate_S (s : QuantumState) :
    normSqState (applyGate s .S) = normSqState s := by
  simp only [normSqState_eq, applyGate, GATES, add, multiply, ZERO, ONE, I, createComplex]
  ring

lemma normSq_applyGate_T (s : QuantumState) :
    normSqState (applyGate s .T) = normSqState s := by
  simp only [normSqState_eq, applyGate, GATES, add, multiply, ZERO, ONE, expImaginary,
    createComplex]
  linear_combination (s.beta.r ^ 2 + s.beta.i ^ 2) * Real.sin_sq_add_cos_sq (Real.pi / 4)

/-- The 2x2 gate matrices exactly as the spec's catalogue table writes them
(section 4.2): rows of the table transcribed literally, with `e^(i pi/4)`
written out by Euler's formula as `(cos(pi/4), sin(pi/4))`. -/
def specMatrix : GateType → Matrix2x2
  | .H => ⟨⟨1 / Real.sqrt 2, 0⟩, ⟨1 / Real.sqrt 2, 0⟩,
           ⟨1 / Real.sqrt 2, 0⟩, ⟨-(1 / Real.sqrt 2), 0⟩⟩
  | .X => ⟨⟨0, 0⟩, ⟨1, 0⟩, ⟨1, 0⟩, ⟨0, 0⟩⟩
  | .Y => ⟨⟨0, 0⟩, ⟨0, -1⟩, ⟨0, 1⟩, ⟨0, 0⟩⟩
  | .Z => ⟨⟨1, 0⟩, ⟨0, 0⟩, ⟨0, 0⟩, ⟨-1, 0⟩⟩
  | .S => ⟨⟨1, 0⟩, ⟨0, 0⟩, ⟨0, 0⟩, ⟨0, 1⟩⟩
  | .T => ⟨⟨1, 0⟩, ⟨0, 0⟩, ⟨0, 0⟩, ⟨Real.cos (Real.pi / 4), Real.sin (Real.pi / 4)⟩⟩

/-- Gate application exactly as the spec words it: `newAlpha = M[0][0]*alpha +
M[0][1]*beta`, `newBeta = M[1][0]*alpha + M[1][1]*beta` with `M = specMatrix g`,
using the complex arithmetic primitives. -/
def specApplyGate (state : QuantumState) (gate : GateType) : QuantumState :=
  ⟨add (multiply (specMatrix gate).m00 state.alpha) (multiply (specMatrix gate).m01 state.beta),
   add (multiply (specMatrix gate).m10 state.alpha) (multiply (specMatrix gate).m11 state.beta)⟩

lemma GATES_eq_specMatrix (g : GateType) : GATES g = specMatrix g := by
  cases g <;>
    simp [GATES, specMatrix, ZERO, ONE, NEG_ONE, I, NEG_I, INV_SQRT_2, expImaginary,
      createComplex, neg_div]

/-! ### Concrete evaluations -/

lemma magnitude_real {x : ℝ} (hx : 0 ≤ x) : magnitude ⟨x, 0⟩ = x := by
  simp only [magnitude, mul_zero, add_zero]
  exact Real.sqrt_mul_self hx

lemma magnitude_neg_real {x : ℝ} (hx : 0 ≤ x) : magnitude ⟨-x, 0⟩ = x := by
  simp only [magnitude, mul_zero, add_zero, neg_mul_neg]
  exact Real.sqrt_mul_self hx

lemma sqrt_two_mul_self : Real.sqrt 2 * Real.sqrt 2 = 2 :=
  Real.mul_self_sqrt (by norm_num)

lemma one_le_sqrt_two : (1 : ℝ) ≤ Real.sqrt 2 := by
  nlinarith [sqrt_two_mul_self, Real.sqrt_nonneg 2]

lemma inv_sqrt_two_pos : (0 : ℝ) < 1 / Real.sqrt 2 := by positivity

lemma inv_sqrt_two_le_one : (1 : ℝ) / Real.sqrt 2 ≤ 1 := by
  rw [div_le_one (by positivity)]
  exact one_le_sqrt_two

lemma arcsin_inv_sqrt_two : Real.arcsin (1 / Real.sqrt 2) = Real.pi / 4 := by
  have h : (1 : ℝ) / Real.sqrt 2 = Real.sin (Real.pi / 4) := by
    rw [Real.sin_pi_div_four]
    rw [div_eq_div_iff (by positivity) (by norm_num)]
    linarith [sqrt_two_mul_self]
  rw [h, Real.arcsin_sin (by linarith [Real.pi_pos]) (by linarith [Real.pi_pos])]

lemma bloch_STATE_ZERO : getBlochCoordinates STATE_ZERO = ⟨0, 0, 1⟩ := by
  have hm : magnitude (⟨0, 0⟩ : Complex) = 0 := by
    simp [magnitude]
  simp only [getBlochCoordinates, STATE_ZERO, createComplex, hm]
  rw [show min (max (0:ℝ) 0) 1 = 0 by norm_num, Real.arcsin_zero,
    atan2_zero_zero, atan2_zero_of_pos one_pos]
  simp

lemma bloch_STATE_ONE : getBlochCoordinates STATE_ONE = ⟨0, 0, -1⟩ := by
  have hm : magnitude (⟨1, 0⟩ : Complex) = 1 := magnitude_real zero_le_one
  simp only [getBlochCoordinates, STATE_ONE, createComplex, hm]
  rw [show min (max (1:ℝ) 0) 1 = 1 by norm_num, Real.arcsin_one,
    show 2 * (Real.pi / 2) = Real.pi by ring, atan2_zero_zero, atan2_zero_of_pos one_pos]
  simp [Real.sin_pi, Real.cos_pi]

lemma applyGate_zero_H :
    applyGate STATE_ZERO .H = ⟨⟨1 / Real.sqrt 2, 0⟩, ⟨1 / Real.sqrt 2, 0⟩⟩ := by
  simp [applyGate, GATES, add, multiply, INV_SQRT_2, STATE_ZERO, createComplex]

lemma bloch_plus :
    getBlochCoordinates ⟨⟨1 / Real.sqrt 2, 0⟩, ⟨1 / Real.sqrt 2, 0⟩⟩ = ⟨1, 0, 0⟩ := by
  have hm : magnitude (⟨1 / Real.sqrt 2, 0⟩ : Complex) = 1 / Real.sqrt 2 :=
    magnitude_real inv_sqrt_two_pos.le
  simp only [getBlochCoordinates, hm]
  rw [clamp_eq inv_sqrt_two_pos.le inv_sqrt_two_le_one, arcsin_inv_sqrt_two,
    show 2 * (Real.pi / 4) = Real.pi / 2 by ring,
    atan2_zero_of_pos inv_sqrt_two_pos]
  simp [Real.sin_pi_div_two, Real.cos_pi_div_two]

lemma applyGate_plus_Z :
    applyGate ⟨⟨1 / Real.sqrt 2, 0⟩, ⟨1 / Real.sqrt 2, 0⟩⟩ .Z
      = ⟨⟨1 / Real.sqrt 2, 0⟩, ⟨-(1 / Real.sqrt 2), 0⟩⟩ := by
  simp [applyGate, GATES, add, multiply, ZERO, ONE, NEG_ONE, createComplex]

lemma bloch_minus :
    getBlochCoordinates ⟨⟨1 / Real.sqrt 2, 0⟩, ⟨-(1 / Real.sqrt 2), 0⟩⟩ = ⟨-1, 0, 0⟩ := by
  have hm : magnitude (⟨-(1 / Real.sqrt 2), 0⟩ : Complex) = 1 / Real.sqrt 2 :=
    magnitude_neg_real inv_sqrt_two_pos.le
  simp only [getBlochCoordinates, hm]
  rw [clamp_eq inv_sqrt_two_pos.le inv_sqrt_two_le_one, arcsin_inv_sqrt_two,
    show 2 * (Real.pi / 4) = Real.pi / 2 by ring,
    atan2_zero_of_pos inv_sqrt_two_pos, atan2_zero_of_neg (neg_neg_of_pos inv_sqrt_two_pos)]
  simp [Real.sin_pi_div_two, Real.cos_pi_div_two, Real.sin_pi, Real.cos_pi]

lemma sin_cos_sphere (a b : ℝ) :
    (Real.sin a * Real.cos b) ^ 2 + (Real.sin a * Real.sin b) ^ 2 + Real.cos a ^ 2 = 1 := by
  linear_combination Real.sin a ^ 2 * Real.sin_sq_add_cos_sq b + Real.sin_sq_add_cos_sq a

/-- Every Bloch point the engine produces lies exactly on the unit sphere. -/
lemma bloch_on_sphere (s : QuantumState) :
    (getBlochCoordinates s).x ^ 2 + (getBlochCoordinates s).y ^ 2 +
      (getBlochCoordinates s).z ^ 2 = 1 := by
  simp only [getBlochCoordinates]
  exact sin_cos_sphere _ _

lemma sin_mul_cos_bounds (a b : ℝ) :
    -1 ≤ Real.sin a * Real.cos b ∧ Real.sin a * Real.cos b ≤ 1 := by
  constructor <;>
    nlinarith [Real.neg_one_le_sin a, Real.sin_le_one a, Real.neg_one_le_cos b,
      Real.cos_le_one b]

lemma sin_mul_sin_bounds (a b : ℝ) :
    -1 ≤ Real.sin a * Real.sin b ∧ Real.sin a * Real.sin b ≤ 1 := by
  constructor <;>
    nlinarith [Real.neg_one_le_sin a, Real.sin_le_one a, Real.neg_one_le_sin b,
      Real.sin_le_one b]

/-! ### Probability and measurement -/

lemma getProbability_STATE_ZERO : getProbability STATE_ZERO = 0 := by
  simp [getProbability, STATE_ZERO, createComplex, magnitude]

lemma getProbability_STATE_ONE : getProbability STATE_ONE = 1 := by
  simp [getProbability, STATE_ONE, createComplex, magnitude]

lemma getProbability_applyGate_Z (s : QuantumState) :
    getProbability (applyGate s .Z) = getProbability s := by
  have h : (applyGate s .Z).beta.r * (applyGate s .Z).beta.r +
      (applyGate s .Z).beta.i * (applyGate s .Z).beta.i =
      s.beta.r * s.beta.r + s.beta.i * s.beta.i := by
    simp only [applyGate, GATES, add, multiply, ZERO, ONE, NEG_ONE, createComplex]
    ring
  simp only [getProbability, magnitude]
  rw [h]

lemma getProbability_applyGate_S (s : QuantumState) :
    getProbability (applyGate s .S) = getProbability s := by
  have h : (applyGate s .S).beta.r * (applyGate s .S).beta.r +
      (applyGate s .S).beta.i * (applyGate s .S).beta.i =
      s.beta.r * s.beta.r + s.beta.i * s.beta.i := by
    simp only [applyGate, GATES, add, multiply, ZERO, ONE, I, createComplex]
    ring
  simp only [getProbability, magnitude]
  rw [h]

lemma getProbability_applyGate_T (s : QuantumState) :
    getProbability (applyGate s .T) = getProbability s := by
  have h : (applyGate s .T).beta.r * (applyGate s .T).beta.r +
      (applyGate s .T).beta.i * (applyGate s .T).beta.i =
      s.beta.r * s.beta.r + s.beta.i * s.beta.i := by
    simp only [applyGate, GATES, add, multiply, ZERO, ONE, expImaginary, createComplex]
    linear_combination (s.beta.r * s.beta.r + s.beta.i * s.beta.i) *
      Real.sin_sq_add_cos_sq (Real.pi / 4)
  simp only [getProbability, magnitude]
  rw [h]

lemma measure_STATE_ZERO (u : ℝ) (h0 : 0 ≤ u) : measure STATE_ZERO u = ⟨STATE_ZERO, 0⟩ := by
  have h : ¬ u < getProbability STATE_ZERO := by
    rw [getProbability_STATE_ZERO]; exact not_lt.mpr h0
  simp [measure, h]

lemma measure_STATE_ONE (u : ℝ) (h1 : u < 1) : measure STATE_ONE u = ⟨STATE_ONE, 1⟩ := by
  have h : u < getProbability STATE_ONE := by
    rw [getProbability_STATE_ONE]; exact h1
  simp [measure, h]

/-! ### Claim theorems -/

/-- C1: for every quantum state satisfying the unit-normalization invariant
`|alpha|^2 + |beta|^2 = 1` and every gate name in the six-gate catalogue
`{H, X, Y, Z, S, T}`, the state returned by `applyGate` again satisfies
`|alpha|^2 + |beta|^2 = 1` — exactly, over the exact-real embedding. -/
theorem C1_applyGate_preserves_normalization (s : QuantumState)
    (h : normSqState s = 1) (g : GateType) : normSqState (applyGate s g) = 1 := by
  cases g
  · rw [normSq_applyGate_H]; exact h
  · rw [normSq_applyGate_X]; exact h
  · rw [normSq_applyGate_Y]; exact h
  · rw [normSq_applyGate_Z]; exact h
  · rw [normSq_applyGate_S]; exact h
  · rw [normSq_applyGate_T]; exact h

theorem C1_applyGate_preserves_normalization_witness :
    normSqState STATE_ZERO = 1 ∧ normSqState (applyGate STATE_ZERO GateType.H) = 1 :=
  ⟨by norm_num [normSqState_eq, STATE_ZERO, createComplex],
   C1_applyGate_preserves_normalization STATE_ZERO
     (by norm_num [normSqState_eq, STATE_ZERO, createComplex]) GateType.H⟩

/-- C2: for every quantum state and every gate name `g` of the catalogue,
`applyGate` returns exactly `newAlpha = M[0][0]*alpha + M[0][1]*beta`,
`newBeta = M[1][0]*alpha + M[1][1]*beta`, computed with the complex `add` and
`multiply` primitives, where `M = specMatrix g` is the constant matrix the
spec's catalogue table assigns to `g` (`specApplyGate` transcribes the spec's
words; `applyGate` and `GATES` transcribe the source). -/
theorem C2_applyGate_matches_spec_catalogue (s : QuantumState) (g : GateType) :
    applyGate s g = specApplyGate s g := by
  simp only [applyGate, specApplyGate, GATES_eq_specMatrix]

/-- C3: for every state and random draw `u` in `[0,1)`, `measure` returns
outcome `1` with exactly the canonical one state iff `u < probabilityOfOne`,
and otherwise outcome `0` with exactly the canonical zero state; on the
canonical zero state the outcome is always `0` with the zero state returned
unchanged, and on the canonical one state the outcome is always `1`. -/
theorem C3_measure_semantics (s : QuantumState) (u : ℝ) (h0 : 0 ≤ u) (h1 : u < 1) :
    (measure s u = ⟨STATE_ONE, 1⟩ ↔ u < getProbability s) ∧
    (¬ u < getProbability s → measure s u = ⟨STATE_ZERO, 0⟩) ∧
    measure STATE_ZERO u = ⟨STATE_ZERO, 0⟩ ∧
    measure STATE_ONE u = ⟨STATE_ONE, 1⟩ := by
  refine ⟨?_, ?_, measure_STATE_ZERO u h0, measure_STATE_ONE u h1⟩
  · by_cases h : u < getProbability s
    · have hm : measure s u = ⟨STATE_ONE, 1⟩ := by simp [measure, h]
      exact ⟨fun _ => h, fun _ => hm⟩
    · have hm : measure s u = ⟨STATE_ZERO, 0⟩ := by simp [measure, h]
      refine ⟨fun he => ?_, fun hlt => absurd hlt h⟩
      rw [hm] at he
      exact absurd (congrArg MeasureResult.outcome he) (by decide)
  · intro h
    simp [measure, h]

theorem C3_measure_semantics_witness :
    (0 : ℝ) ≤ 0 ∧ (0 : ℝ) < 1 ∧ measure STATE_ZERO 0 = ⟨STATE_ZERO, 0⟩ :=
  ⟨le_rfl, by norm_num,
   (C3_measure_semantics STATE_ZERO 0 le_rfl (by norm_num)).2.2.1⟩

/-- The spec's claim about non-normalized inputs, exactly as stated: some state
with `|alpha|^2 + |beta|^2 ≠ 1` makes the returned probability fall outside
`[0,1]` and the returned Bloch point fall off the unit sphere. -/
def nonNormalizedMeaninglessClaim : Prop :=
  ∃ s : QuantumState, normSqState s ≠ 1 ∧
    (getProbability s < 0 ∨ 1 < getProbability s) ∧
    (getBlochCoordinates s).x ^ 2 + (getBlochCoordinates s).y ^ 2 +
      (getBlochCoordinates s).z ^ 2 ≠ 1

/-- C4 counterexample: the claim as stated is false — no state, normalized or
not, ever yields a Bloch point off the unit sphere, because the clamped
`sin`/`cos` construction always produces a unit vector. -/
theorem C4_counterexample : ¬ nonNormalizedMeaninglessClaim := by
  rintro ⟨s, -, -, hoff⟩
  exact hoff (bloch_on_sphere s)

/-- C4 (amended): non-normalized states are not validated and raise no
failure; the returned probability can lie outside `[0,1]` (it is `4` on the
state `alpha = 0, beta = 2`), but the returned Bloch point nevertheless always
lies exactly on the unit sphere. -/
theorem C4_non_normalized_inputs :
    (∃ s : QuantumState, normSqState s ≠ 1 ∧ 1 < getProbability s) ∧
    (∀ s : QuantumState,
      (getBlochCoordinates s).x ^ 2 + (getBlochCoordinates s).y ^ 2 +
        (getBlochCoordinates s).z ^ 2 = 1) := by
  constructor
  · refine ⟨⟨⟨0, 0⟩, ⟨2, 0⟩⟩, ?_, ?_⟩
    · norm_num [normSqState_eq]
    · have hm : magnitude (⟨2, 0⟩ : Complex) = 2 := magnitude_real (by norm_num)
      simp only [getProbability, hm]
      norm_num
  · exact bloch_on_sphere

/-- C5: `probabilityOfOne` returns `magnitude(beta)^2` and is total (it is a
total function of the embedding by construction); on every normalized state
the result lies in `[0,1]`; it is exactly `0` on the canonical zero state and
exactly `1` on the canonical one state. -/
theorem C5_probabilityOfOne :
    (∀ s : QuantumState, getProbability s = magnitude s.beta ^ 2) ∧
    (∀ s : QuantumState, normSqState s = 1 →
      0 ≤ getProbability s ∧ getProbability s ≤ 1) ∧
    getProbability STATE_ZERO = 0 ∧ getProbability STATE_ONE = 1 := by
  refine ⟨fun s => by simp only [getProbability]; ring, fun s h => ?_,
    getProbability_STATE_ZERO, getProbability_STATE_ONE⟩
  rw [normSqState] at h
  constructor
  · exact mul_self_nonneg _
  · show magnitude s.beta * magnitude s.beta ≤ 1
    nlinarith [sq_nonneg (magnitude s.alpha), sq_abs (magnitude s.beta)]

theorem C5_probabilityOfOne_witness :
    normSqState STATE_ONE = 1 ∧
      0 ≤ getProbability STATE_ONE ∧ getProbability STATE_ONE ≤ 1 :=
  ⟨by norm_num [normSqState_eq, STATE_ONE, createComplex],
   C5_probabilityOfOne.2.1 STATE_ONE
     (by norm_num [normSqState_eq, STATE_ONE, createComplex])⟩

/-- C6: `blochCoordinates` maps the canonical zero state to the north pole
`(0,0,1)` and the canonical one state to the south pole `(0,0,-1)` exactly,
and maps the post-Hadamard state `H|0>` onto the equator: `z = 0` and
`x^2 + y^2 = 1` (exactly, over the exact-real embedding). -/
theorem C6_bloch_poles_and_equator :
    getBlochCoordinates STATE_ZERO = ⟨0, 0, 1⟩ ∧
    getBlochCoordinates STATE_ONE = ⟨0, 0, -1⟩ ∧
    (getBlochCoordinates (applyGate STATE_ZERO GateType.H)).z = 0 ∧
    (getBlochCoordinates (applyGate STATE_ZERO GateType.H)).x ^ 2 +
      (getBlochCoordinates (applyGate STATE_ZERO GateType.H)).y ^ 2 = 1 := by
  refine ⟨bloch_STATE_ZERO, bloch_STATE_ONE, ?_, ?_⟩ <;>
    rw [applyGate_zero_H, bloch_plus] <;> norm_num

/-- C7: on every normalized state, `blochCoordinates` returns a real 3-tuple
`(x, y, z)` with every coordinate in `[-1, 1]` and `x^2 + y^2 + z^2 = 1`. -/
theorem C7_bloch_unit_sphere (s : QuantumState) (h : normSqState s = 1) :
    ((-1 ≤ (getBlochCoordinates s).x ∧ (getBlochCoordinates s).x ≤ 1) ∧
     (-1 ≤ (getBlochCoordinates s).y ∧ (getBlochCoordinates s).y ≤ 1) ∧
     (-1 ≤ (getBlochCoordinates s).z ∧ (getBlochCoordinates s).z ≤ 1)) ∧
    (getBlochCoordinates s).x ^ 2 + (getBlochCoordinates s).y ^ 2 +
      (getBlochCoordinates s).z ^ 2 = 1 := by
  refine ⟨⟨?_, ?_, ?_⟩, bloch_on_sphere s⟩ <;> simp only [getBlochCoordinates]
  · exact sin_mul_cos_bounds _ _
  · exact sin_mul_sin_bounds _ _
  · exact ⟨Real.neg_one_le_cos _, Real.cos_le_one _⟩

theorem C7_bloch_unit_sphere_witness :
    normSqState STATE_ZERO = 1 ∧
      (getBlochCoordinates STATE_ZERO).x ^ 2 + (getBlochCoordinates STATE_ZERO).y ^ 2 +
        (getBlochCoordinates STATE_ZERO).z ^ 2 = 1 :=
  ⟨by norm_num [normSqState_eq, STATE_ZERO, createComplex],
   (C7_bloch_unit_sphere STATE_ZERO
     (by norm_num [normSqState_eq, STATE_ZERO, createComplex])).2⟩

/-- C8: Pauli-X and Pauli-Z are each self-inverse under sequential
application: for every state `s`, `applyGate (applyGate s X) X = s` and
`applyGate (applyGate s Z) Z = s`, with exact equality of amplitudes. -/
theorem C8_X_and_Z_self_inverse (s : QuantumState) :
    applyGate (applyGate s GateType.X) GateType.X = s ∧
    applyGate (applyGate s GateType.Z) GateType.Z = s := by
  constructor <;>
    · ext <;>
        simp [applyGate, GATES, add, multiply, ZERO, ONE, NEG_ONE, createComplex]

/-- C9: the phase gates Z, S, T leave `probabilityOfOne` unchanged on every
state; and in the end-to-end scenario `|0> → H → Z` the probability is exactly
`1/2`, the Bloch `z`-coordinate stays `0`, and the Bloch `(x,y)` flips from
`(1,0)` before Z to `(-1,0)` after Z (a sign/angle change, `phi: 0 → pi`). -/
theorem C9_phase_gates_preserve_probability :
    (∀ s : QuantumState,
      getProbability (applyGate s GateType.Z) = getProbability s ∧
      getProbability (applyGate s GateType.S) = getProbability s ∧
      getProbability (applyGate s GateType.T) = getProbability s) ∧
    getProbability (applyGate (applyGate STATE_ZERO GateType.H) GateType.Z) = 1 / 2 ∧
    getBlochCoordinates (applyGate STATE_ZERO GateType.H) = ⟨1, 0, 0⟩ ∧
    getBlochCoordinates (applyGate (applyGate STATE_ZERO GateType.H) GateType.Z)
      = ⟨-1, 0, 0⟩ := by
  refine ⟨fun s => ⟨getProbability_applyGate_Z s, getProbability_applyGate_S s,
    getProbability_applyGate_T s⟩, ?_, ?_, ?_⟩
  · rw [applyGate_zero_H, applyGate_plus_Z]
    have hm : magnitude (⟨-(1 / Real.sqrt 2), 0⟩ : Complex) = 1 / Real.sqrt 2 :=
      magnitude_neg_real inv_sqrt_two_pos.le
    simp only [getProbability, hm]
    rw [div_mul_div_comm, one_mul, sqrt_two_mul_self]
  · rw [applyGate_zero_H]; exact bloch_plus
  · rw [applyGate_zero_H, applyGate_plus_Z]; exact bloch_minus

/-- C10: whenever `magnitude beta ≤ 1`, the Bloch `z`-coordinate equals
`1 - 2 * probabilityOfOne(state)`: `cos (2 * arcsin m) = 1 - 2 * m^2`, linking
the Bloch latitude directly to the measurement probability. -/
theorem C10_bloch_z_eq_one_sub_two_prob (s : QuantumState)
    (h : magnitude s.beta ≤ 1) :
    (getBlochCoordinates s).z = 1 - 2 * getProbability s := by
  have h0 : 0 ≤ magnitude s.beta := magnitude_nonneg s.beta
  have h1m : 0 ≤ 1 - magnitude s.beta ^ 2 := by nlinarith
  simp only [getBlochCoordinates, getProbability]
  rw [clamp_eq h0 h, Real.cos_two_mul, Real.cos_arcsin, Real.sq_sqrt h1m]
  ring

theorem C10_bloch_z_eq_one_sub_two_prob_witness :
    magnitude STATE_ZERO.beta ≤ 1 ∧
      (getBlochCoordinates STATE_ZERO).z = 1 - 2 * getProbability STATE_ZERO :=
  ⟨by norm_num [STATE_ZERO, createComplex, magnitude],
   C10_bloch_z_eq_one_sub_two_prob STATE_ZERO
     (by norm_num [STATE_ZERO, createComplex, magnitude])⟩

end

end QuantumEngine
